import Mathlib

/-!
Shallow embedding of the `yz-futures-codec` framing layer
(crates/codec: `codec/length.rs`, `codec/limit.rs`, `codec/lines.rs`,
`lib.rs`; crates/util: `sink.rs`).

Conventions of the embedding:
* A `BytesMut` buffer is a `List Nat` of byte values; the Rust code only
  ever stores `u8` values in it, so byte-boundedness (`< 256`) appears as a
  hypothesis where a theorem needs it.
* Rust functions taking `&mut BytesMut` become functions returning the new
  buffer alongside the result.
* Machine integers are `Nat`; `usize` is 64-bit (the `usize::try_from` on a
  `u64` length is the check against `2 ^ 64`).
* A length header type `L ∈ {u8, u16, u32, u64}` is represented by its byte
  width `w ∈ {1, 2, 4, 8}` (`std::mem::size_of::<L>()`).
-/

set_option maxRecDepth 8192

namespace YzFuturesCodec

/-- A `BytesMut` buffer: a sequence of byte values. -/
abbrev Buffer := List Nat

/-- `usize` bound on the modelled 64-bit platform. -/
def USIZE_BOUND : Nat := 2 ^ 64

/-- `OverflowError` from `codec/length.rs`. -/
inductive OverflowError where
  | overflow
deriving DecidableEq

/-- `L::to_be_bytes` for a `w`-byte unsigned integer: big-endian digits,
most significant first (`codec/length.rs`, `impl_length!`). -/
def toBeBytes : Nat → Nat → Buffer
  | 0, _ => []
  | w + 1, n => toBeBytes w (n / 256) ++ [n % 256]

/-- `L::from_be_bytes`: read a big-endian integer from a byte list. -/
def fromBeBytes (l : Buffer) : Nat :=
  l.foldl (fun acc b => acc * 256 + b) 0

/-- `LengthType::start_decode` (`codec/length.rs`, `impl_length!`): read the
`w`-byte big-endian header from the front of `src` without consuming it. -/
def startDecode (w : Nat) (src : Buffer) : Nat :=
  fromBeBytes (src.take w)

/-- `LengthType::encode` (`codec/length.rs`, `impl_length!`): convert the
payload length to the `w`-byte header type (`L::try_from`, failing with
`OverflowError` when it does not fit, i.e. when `x ≥ 256 ^ w`), then append
the big-endian bytes. Nothing is written on failure. -/
def LengthType.encode (w : Nat) (x : Nat) (dst : Buffer) :
    Except OverflowError Buffer :=
  if x < 256 ^ w then .ok (dst ++ toBeBytes w x) else .error .overflow

/-- `<Length<L> as Encoder>::encode` (`codec/length.rs` lines 112-117):
encode the header via `L::encode` (the `?` propagates `OverflowError`
before anything is written), then append the raw payload.
The returned buffer is the final state of `dst`. -/
def Length.encode (w : Nat) (src dst : Buffer) :
    Except OverflowError Unit × Buffer :=
  match LengthType.encode w src.length dst with
  | .ok dst1 => (.ok (), dst1 ++ src)
  | .error e => (.error e, dst)

/-- `<Length<L> as Decoder>::decode` (`codec/length.rs` lines 124-137):
if fewer than `w` bytes are buffered, no item yet; otherwise peek the
header, convert the `u64` length to `usize` (the check against
`USIZE_BOUND`), and if the full payload is buffered consume header and
payload, else no item yet with the buffer untouched. -/
def Length.decode (w : Nat) (src : Buffer) :
    Except OverflowError (Option Buffer) × Buffer :=
  if src.length < w then (.ok none, src)
  else if startDecode w src < USIZE_BOUND then
    if startDecode w src ≤ src.length - w then
      (.ok (some ((src.drop w).take (startDecode w src))),
       (src.drop w).drop (startDecode w src))
    else (.ok none, src)
  else (.error .overflow, src)

/-- `LenSkipAhead::continue_skipping` (`codec/length.rs` lines 145-155):
the handler state is the `remaining` count of payload bytes still to be
discarded. If the buffer holds at least `remaining` bytes, report
`remaining` bytes to skip and completion (`None`); otherwise report the
whole buffer and carry the decremented remainder. The `usize`/`u64`
conversions are infallible on the modelled 64-bit platform, and the
function never returns `Err`. -/
def LenSkipAhead.continueSkipping (remaining : Nat) (src : Buffer) :
    Except Unit (Nat × Option Nat) :=
  if remaining ≤ src.length then .ok (remaining, none)
  else .ok (src.length, some (remaining - src.length))

/-- `<Length<L> as DecoderWithSkipAhead>::prepare_skip_ahead`
(`codec/length.rs` lines 160-171): read the length header (the source
asserts `src.len() > size_of::<L>()`, which holds at the only call site
because `src.len() > max_frame_size ≥ size_of::<L>()`), consume the
header bytes, and record the payload length as the remaining count. -/
def Length.prepareSkipAhead (w : Nat) (src : Buffer) : Nat × Buffer :=
  (startDecode w src, src.drop w)

/-- `LimitError` (`codec/limit.rs` lines 74-83). -/
inductive LimitError (ε : Type) where
  | limitExceeded (n : Nat)
  | defunct
  | inner (e : ε)
deriving DecidableEq

/-- Mutable state of the `Limit` wrapper (`codec/limit.rs` lines 51-56):
the optional skip-ahead handler and the defunct flag.
`max_frame_size` is passed separately since it never changes. -/
structure LimitSt (σ : Type) where
  skipAheadState : Option σ
  decoderDefunct : Bool
deriving DecidableEq

/-- A `DecoderWithSkipAhead` inner codec: its decode function, its
skip-ahead preparation, and the handler's `continue_skipping`
(`codec/limit.rs` lines 6-42). -/
structure InnerSA (α ε σ : Type) where
  decode : Buffer → Except ε (Option α) × Buffer
  prepareSkipAhead : Buffer → σ × Buffer
  continueSkipping : σ → Buffer → Except Unit (Nat × Option σ)

/-- Outcome of the skip-ahead `while let` loop at the top of
`Limit::decode` (`codec/limit.rs` lines 113-129): either the loop
returned `Ok(None)` early because the buffer ran dry, or control fell
through (with the handler slot empty) and `defunctSet` records whether
`continue_skipping` failed. -/
inductive SkipOut (σ : Type) where
  | retNone (src : Buffer) (sas : Option σ)
  | through (src : Buffer) (defunctSet : Bool)

/-- The `while let Some(sas) = self.skip_ahead_state.take()` loop of
`Limit::decode`. `fuel` bounds the iteration count; `src.length + 1` is
always enough for a handler meeting the loop's `debug_assert` (a nonzero
amount whenever a continuation remains), and the `Length` handler runs
the body at most once per call. -/
def skipLoop {σ : Type} (cont : σ → Buffer → Except Unit (Nat × Option σ)) :
    Nat → Option σ → Buffer → SkipOut σ
  | _, none, src => .through src false
  | 0, some s, src => .retNone src (some s)
  | fuel + 1, some s, src =>
    match cont s src with
    | .error () => .through src true
    | .ok (amount, next) =>
      if (src.drop amount).length = 0 then .retNone (src.drop amount) next
      else
        match next with
        | none => .through (src.drop amount) false
        | some s2 => skipLoop cont fuel (some s2) (src.drop amount)

/-- `<Limit<C> as Decoder>::decode` (`codec/limit.rs` lines 112-144):
run the skip-ahead loop; if it returned early, report no item. Then, if
defunct, clear the buffer and fail with `Defunct`. Otherwise delegate to
the inner decode; when it reports no item while the buffered length
already exceeds `max_frame_size`, prepare a skip-ahead handler and fail
with `LimitExceeded` carrying `src.len()` — note the source evaluates
this length only after `prepare_skip_ahead` has consumed from `src`. -/
def limitDecode {α ε σ : Type} (inner : InnerSA α ε σ) (maxFrameSize : Nat)
    (st : LimitSt σ) (src : Buffer) :
    Except (LimitError ε) (Option α) × Buffer × LimitSt σ :=
  match skipLoop inner.continueSkipping (src.length + 1) st.skipAheadState src with
  | .retNone src2 sas => (.ok none, src2, ⟨sas, st.decoderDefunct⟩)
  | .through src2 defunctSet =>
    if st.decoderDefunct || defunctSet then
      (.error .defunct, [], ⟨none, true⟩)
    else
      match inner.decode src2 with
      | (.ok none, src3) =>
        if maxFrameSize < src3.length then
          (.error (.limitExceeded ((inner.prepareSkipAhead src3).2).length),
           (inner.prepareSkipAhead src3).2,
           ⟨some (inner.prepareSkipAhead src3).1, false⟩)
        else (.ok none, src3, ⟨none, false⟩)
      | (.ok (some it), src3) => (.ok (some it), src3, ⟨none, false⟩)
      | (.error e, src3) => (.error (.inner e), src3, ⟨none, false⟩)

/-- The `Length<L>` codec packaged as a `DecoderWithSkipAhead` inner
codec for `Limit` (`codec/length.rs` lines 120-172). -/
def lengthInner (w : Nat) : InnerSA Buffer OverflowError Nat where
  decode := Length.decode w
  prepareSkipAhead := Length.prepareSkipAhead w
  continueSkipping := LenSkipAhead.continueSkipping

/-- Run `Limit::decode` over a sequence of input buffers, threading the
wrapper state; returns the per-call results and the final state. -/
def limitDecodeSeq {α ε σ : Type} (inner : InnerSA α ε σ) (maxFrameSize : Nat) :
    LimitSt σ → List Buffer → List (Except (LimitError ε) (Option α)) × LimitSt σ
  | st, [] => ([], st)
  | st, src :: rest =>
    (((limitDecode inner maxFrameSize st src).1 ::
        (limitDecodeSeq inner maxFrameSize
          (limitDecode inner maxFrameSize st src).2.2 rest).1),
     (limitDecodeSeq inner maxFrameSize
        (limitDecode inner maxFrameSize st src).2.2 rest).2)

/-- States of the standard UTF-8 validation automaton used to model
`String::from_utf8`: `s0` between scalar values, `cN` expecting `N` more
continuation bytes in the generic `80..=BF` range, and the special states
after lead bytes `E0`, `ED`, `F0`, `F4` whose first continuation byte has
a restricted range (excluding overlong encodings and surrogates). -/
inductive Utf8State where
  | s0 | c1 | c2 | c3 | e0 | ed | f0 | f4 | bad
deriving DecidableEq

/-- One byte transition of the UTF-8 validation automaton. -/
def utf8Step (st : Utf8State) (b : Nat) : Utf8State :=
  match st with
  | .s0 =>
    if b ≤ 0x7F then .s0
    else if 0xC2 ≤ b ∧ b ≤ 0xDF then .c1
    else if b = 0xE0 then .e0
    else if (0xE1 ≤ b ∧ b ≤ 0xEC) ∨ b = 0xEE ∨ b = 0xEF then .c2
    else if b = 0xED then .ed
    else if b = 0xF0 then .f0
    else if 0xF1 ≤ b ∧ b ≤ 0xF3 then .c3
    else if b = 0xF4 then .f4
    else .bad
  | .c1 => if 0x80 ≤ b ∧ b ≤ 0xBF then .s0 else .bad
  | .c2 => if 0x80 ≤ b ∧ b ≤ 0xBF then .c1 else .bad
  | .c3 => if 0x80 ≤ b ∧ b ≤ 0xBF then .c2 else .bad
  | .e0 => if 0xA0 ≤ b ∧ b ≤ 0xBF then .c1 else .bad
  | .ed => if 0x80 ≤ b ∧ b ≤ 0x9F then .c1 else .bad
  | .f0 => if 0x90 ≤ b ∧ b ≤ 0xBF then .c2 else .bad
  | .f4 => if 0x80 ≤ b ∧ b ≤ 0x8F then .c2 else .bad
  | .bad => .bad

/-- `String::from_utf8` succeeds on a byte sequence exactly when the
automaton, started between scalar values, ends between scalar values. -/
def utf8Valid (l : Buffer) : Bool :=
  (l.foldl utf8Step .s0) = .s0

/-- A Rust `String` is represented by its UTF-8 byte sequence. -/
abbrev RString := Buffer

/-- `<Lines as Encoder>::encode` (`codec/lines.rs` lines 28-31):
`dst.put(item.as_bytes())` — append the item's bytes, nothing more
(in particular no newline is added). -/
def Lines.encode (item : RString) (dst : Buffer) : Buffer :=
  dst ++ item

/-- `memchr(needle, haystack)`: index of the first occurrence of the
byte, if any. -/
def memchr (needle : Nat) : Buffer → Option Nat
  | [] => none
  | b :: t => if b = needle then some 0 else (memchr needle t).map (· + 1)

/-- `<Lines as Decoder>::decode` (`codec/lines.rs` lines 39-47):
`memchr(b'\n', src)`; when a newline is found at `pos`, split off the
first `pos + 1` bytes and convert them via `String::from_utf8` (modelled
by `utf8Valid`); otherwise no item and the buffer untouched. On a
`FromUtf8Error` the split-off line has already been consumed. -/
def Lines.decode (src : Buffer) : Except Unit (Option RString) × Buffer :=
  match memchr 10 src with
  | some pos =>
    if utf8Valid (src.take (pos + 1)) then
      (.ok (some (src.take (pos + 1))), src.drop (pos + 1))
    else (.error (), src.drop (pos + 1))
  | none => (.ok none, src)

/-- A `Decoder` as used by `Framed::poll_next`: `decode` plus
`decode_eof` (`codec/mod.rs` lines 4-21). -/
structure CodecM (α ε : Type) where
  decode : Buffer → Except ε (Option α) × Buffer
  decodeEof : Buffer → Except ε (Option α) × Buffer

/-- The `Lines` codec packaged for `Framed`; its `decode_eof` is the
trait default, i.e. `decode` itself. -/
def linesCM : CodecM RString Unit where
  decode := Lines.decode
  decodeEof := Lines.decode

/-- Result of one `Framed::poll_next` call (`lib.rs` lines 168-207):
an item, clean end of stream, a codec error, or the truncated-stream
error (`io::ErrorKind::UnexpectedEof`, "bytes remaining in stream"). -/
inductive PollRes (α ε : Type) where
  | item (a : α)
  | stop
  | codecErr (e : ε)
  | truncated
deriving DecidableEq

/-- The `loop` inside `Framed::poll_next` (`lib.rs` lines 173-206). The
underlying reader is a list of pending chunks; an exhausted list reads
zero bytes (end of input), and `ended = n == 0` is re-evaluated after
every read. `fuel` bounds the iteration count; each iteration either
returns, consumes one chunk, or flips `ended` with no chunks left, so
`chunks.length + 2` iterations always suffice. -/
def pollNextFuel {α ε : Type} (c : CodecM α ε) :
    Nat → List Buffer → Buffer → Bool → PollRes α ε × Buffer × List Buffer
  | 0, chunks, rbuf, _ => (.stop, rbuf, chunks)
  | fuel + 1, chunks, rbuf, ended =>
    match c.decode rbuf with
    | (.error e, rb) => (.codecErr e, rb, chunks)
    | (.ok (some it), rb) => (.item it, rb, chunks)
    | (.ok none, rb) =>
      if ended then
        if rb.isEmpty then (.stop, rb, chunks)
        else
          match c.decodeEof rb with
          | (.error e, rb2) => (.codecErr e, rb2, chunks)
          | (.ok (some it), rb2) => (.item it, rb2, chunks)
          | (.ok none, rb2) =>
            if rb2.isEmpty then (.stop, rb2, chunks)
            else (.truncated, rb2, chunks)
      else
        match chunks with
        | [] => pollNextFuel c fuel [] rb true
        | ch :: rest => pollNextFuel c fuel rest (rb ++ ch) ch.isEmpty

/-- One `Framed::poll_next` call: `ended` starts out false on every call,
and the chunk count plus two bounds the loop. -/
def framedPollNext {α ε : Type} (c : CodecM α ε) (chunks : List Buffer)
    (rbuf : Buffer) : PollRes α ε × Buffer × List Buffer :=
  pollNextFuel c (chunks.length + 2) chunks rbuf false

/-- The always-ready sink of `tests/write.rs` (`AsyncWriteNull`): every
`poll_write` accepts all offered bytes; `num_poll_write` counts the calls
and `last_write_size` records the last accepted size. `writes`
additionally records every accepted write size, in order, so the theorem
can speak about each underlying write. -/
structure NullSink where
  numPollWrite : Nat
  lastWriteSize : Nat
  writes : List Nat
deriving DecidableEq

/-- The write-side state of a `Framed` transport (`lib.rs` lines 78-106)
over the null sink: the write buffer, the high-water mark, and the sink. -/
structure FramedW where
  wBuffer : Buffer
  wHighWaterMark : Nat
  sink : NullSink
deriving DecidableEq

/-- The `while this.w_buffer.len() > limit` loop of
`Framed::poll_flush_until` (`lib.rs` lines 219-230) against the
always-accepting sink: each `poll_write` is offered the whole buffer and
accepts all of it, so the zero-byte-write end-of-input branch can never
fire here and one iteration empties the buffer (`fuel = buf.length + 1`
always suffices). -/
def flushLoop (limit : Nat) : Nat → Buffer → NullSink → Buffer × NullSink
  | 0, buf, sk => (buf, sk)
  | fuel + 1, buf, sk =>
    if limit < buf.length then
      flushLoop limit fuel (buf.drop buf.length)
        ⟨sk.numPollWrite + 1, buf.length, sk.writes ++ [buf.length]⟩
    else (buf, sk)

/-- `Framed::poll_flush_until` (`lib.rs` lines 211-237) on the null sink.
The trailing `poll_flush` issued to the inner sink when the buffer shrank
is a no-op on the null sink and records nothing. -/
def pollFlushUntil (limit : Nat) (f : FramedW) : FramedW :=
  { f with
    wBuffer := (flushLoop limit (f.wBuffer.length + 1) f.wBuffer f.sink).1,
    sink := (flushLoop limit (f.wBuffer.length + 1) f.wBuffer f.sink).2 }

/-- `FlushSink::poll_ready` (`lib.rs` lines 247-251): drain the write
buffer down to `w_high_water_mark - 1` before accepting a new item. -/
def pollReady (f : FramedW) : FramedW :=
  pollFlushUntil (f.wHighWaterMark - 1) f

/-- `Sink::start_send` (`lib.rs` lines 267-270) with `BytesCodec`
(`codec/bytes.rs`): `encode` appends the item's bytes to the write
buffer. -/
def startSend (item : Buffer) (f : FramedW) : FramedW :=
  { f with wBuffer := f.wBuffer ++ item }

/-- The item loop of `SendAll::poll` (`crates/util/src/sink.rs` lines
92-107) over an always-ready stream and the always-ready null sink: each
item passes `poll_ready` and is then `start_send`-ed. -/
def sendLoop (items : List Buffer) (f : FramedW) : FramedW :=
  items.foldl (fun f it => startSend it (pollReady f)) f

/-- `SendAll::poll` driven to completion: the item loop followed by the
final full `poll_flush` (drain target 0) once the stream is exhausted
(`crates/util/src/sink.rs` lines 97-100). -/
def sendAllNull (items : List Buffer) (f : FramedW) : FramedW :=
  pollFlushUntil 0 (sendLoop items f)

end YzFuturesCodec

namespace YzFuturesCodec

theorem toBeBytes_length (w n : Nat) : (toBeBytes w n).length = w := by
  induction w generalizing n with
  | zero => rfl
  | succ w ih => simp [toBeBytes, ih]

theorem fromBeBytes_append_singleton (l : Buffer) (b : Nat) :
    fromBeBytes (l ++ [b]) = fromBeBytes l * 256 + b := by
  simp [fromBeBytes, List.foldl_append]

theorem fromBeBytes_toBeBytes (w n : Nat) (h : n < 256 ^ w) :
    fromBeBytes (toBeBytes w n) = n := by
  induction w generalizing n with
  | zero =>
    simp [pow_zero] at h
    simp [toBeBytes, fromBeBytes, h]
  | succ w ih =>
    have hdiv : n / 256 < 256 ^ w := by
      rw [Nat.div_lt_iff_lt_mul (by norm_num : (0:Nat) < 256)]
      calc n < 256 ^ (w + 1) := h
        _ = 256 ^ w * 256 := by ring
    rw [toBeBytes, fromBeBytes_append_singleton, ih _ hdiv]
    omega

theorem fromBeBytes_foldl_lt (l : Buffer) (h : ∀ b ∈ l, b < 256) :
    ∀ acc, l.foldl (fun acc b => acc * 256 + b) acc < (acc + 1) * 256 ^ l.length := by
  induction l with
  | nil => intro acc; simp
  | cons b t ih =>
    intro acc
    have hb : b < 256 := h b (by simp)
    have ht : ∀ x ∈ t, x < 256 := fun x hx => h x (by simp [hx])
    have hstep := ih ht (acc * 256 + b)
    calc (b :: t).foldl (fun acc b => acc * 256 + b) acc
        = t.foldl (fun acc b => acc * 256 + b) (acc * 256 + b) := rfl
      _ < (acc * 256 + b + 1) * 256 ^ t.length := hstep
      _ ≤ ((acc + 1) * 256) * 256 ^ t.length := by
          apply Nat.mul_le_mul_right
          omega
      _ = (acc + 1) * 256 ^ (b :: t).length := by
          simp [List.length_cons, pow_succ]
          ring

theorem fromBeBytes_lt (l : Buffer) (h : ∀ b ∈ l, b < 256) :
    fromBeBytes l < 256 ^ l.length := by
  have := fromBeBytes_foldl_lt l h 0
  simpa [fromBeBytes] using this

theorem pow256_le_usize {w : Nat} (h : w ≤ 8) : 256 ^ w ≤ USIZE_BOUND := by
  have : (256 : Nat) ^ w ≤ 256 ^ 8 := Nat.pow_le_pow_right (by norm_num) h
  simpa [USIZE_BOUND] using this

theorem width_le_8 {w : Nat} (hw : w = 1 ∨ w = 2 ∨ w = 4 ∨ w = 8) : w ≤ 8 := by
  rcases hw with h | h | h | h <;> omega

theorem take_append_len (a b : Buffer) (w : Nat) (h : a.length = w) :
    (a ++ b).take w = a := by
  subst h; simp

theorem drop_append_len (a b : Buffer) (w : Nat) (h : a.length = w) :
    (a ++ b).drop w = b := by
  subst h; simp

theorem startDecode_header (w n : Nat) (rest : Buffer) :
    startDecode w (toBeBytes w n ++ rest) = fromBeBytes (toBeBytes w n) := by
  unfold startDecode
  rw [take_append_len _ _ _ (toBeBytes_length w n)]

theorem startDecode_take_prefix (w : Nat) (src ext : Buffer) (hw : w ≤ src.length) :
    startDecode w (src ++ ext) = startDecode w src := by
  unfold startDecode
  rw [List.take_append_eq_append_take, Nat.sub_eq_zero_of_le hw]
  simp

/-- Equation: `Length.encode` in the in-range case. -/
theorem Length.encode_eq_ok {w : Nat} {src : Buffer} (dst : Buffer)
    (h : src.length < 256 ^ w) :
    Length.encode w src dst =
      (.ok (), (dst ++ toBeBytes w src.length) ++ src) := by
  unfold Length.encode LengthType.encode
  rw [if_pos h]

/-- Equation: `Length.encode` in the overflow case. -/
theorem Length.encode_eq_err {w : Nat} {src : Buffer} (dst : Buffer)
    (h : ¬ src.length < 256 ^ w) :
    Length.encode w src dst = (.error .overflow, dst) := by
  unfold Length.encode LengthType.encode
  rw [if_neg h]

/-- C1: every `Ok(None)` path of `Length::decode` leaves the buffer
byte-for-byte identical to its input; with a full header but incomplete
payload the result is `Ok(None)` with the buffer untouched (hence repeated
calls peek the same header forever); and a later call on the buffer
completed with the remaining payload bytes yields exactly the frame the
header declared. -/
theorem length_decode_no_item_buffer_unchanged (w : Nat) :
    (∀ src : Buffer, (Length.decode w src).1 = .ok none →
       (Length.decode w src).2 = src) ∧
    (∀ src : Buffer, w ≤ src.length →
       startDecode w src < USIZE_BOUND →
       src.length - w < startDecode w src →
       Length.decode w src = (.ok none, src)) ∧
    (∀ src ext : Buffer, w ≤ src.length →
       startDecode w src < USIZE_BOUND →
       src.length - w < startDecode w src →
       src.length + ext.length = w + startDecode w src →
       Length.decode w (src ++ ext) = (.ok (some (src.drop w ++ ext)), [])) := by
  refine ⟨?_, ?_, ?_⟩
  · intro src h
    unfold Length.decode at h ⊢
    split_ifs at h ⊢ <;> simp_all
  · intro src hw husz hinc
    unfold Length.decode
    rw [if_neg (by omega), if_pos husz, if_neg (by omega)]
  · intro src ext hw husz hinc hlen
    have hsd := startDecode_take_prefix w src ext hw
    have hlentot : (src ++ ext).length = w + startDecode w src := by
      simp only [List.length_append]; omega
    have hdropapp : (src ++ ext).drop w = src.drop w ++ ext := by
      rw [List.drop_append_eq_append_drop, Nat.sub_eq_zero_of_le hw]
      simp
    have hplen : (src.drop w ++ ext).length = startDecode w src := by
      simp only [List.length_append, List.length_drop]; omega
    unfold Length.decode
    rw [if_neg (by omega), hsd, if_pos husz, if_pos (by omega), hdropapp,
        ← hplen, List.take_length, List.drop_length]

/-- Witness for `length_decode_no_item_buffer_unchanged`: with a `u8`
header (`w = 1`), buffer `[5, 1]` declares a 5-byte payload of which only
1 byte is present, so decode returns no item and leaves the buffer alone;
completing it with `[2, 3, 4, 5]` yields the declared 5-byte frame. -/
theorem length_decode_no_item_buffer_unchanged_witness :
    Length.decode 1 [5, 1] = (.ok none, [5, 1]) ∧
    Length.decode 1 ([5, 1] ++ [2, 3, 4, 5]) =
      (.ok (some (List.drop 1 [5, 1] ++ [2, 3, 4, 5])), []) :=
  ⟨(length_decode_no_item_buffer_unchanged 1).2.1 [5, 1]
      (by decide) (by decide) (by decide),
   (length_decode_no_item_buffer_unchanged 1).2.2 [5, 1] [2, 3, 4, 5]
      (by decide) (by decide) (by decide) (by decide)⟩

/-- Equation: decoding a buffer holding exactly one full header-prefixed
frame yields the payload and empties the buffer. -/
theorem Length.decode_header_payload {w : Nat} (payload : Buffer)
    (hw8 : w ≤ 8) (hfit : payload.length < 256 ^ w) :
    Length.decode w (toBeBytes w payload.length ++ payload) =
      (.ok (some payload), []) := by
  have hsd : startDecode w (toBeBytes w payload.length ++ payload)
      = payload.length := by
    rw [startDecode_header, fromBeBytes_toBeBytes _ _ hfit]
  have hlen : (toBeBytes w payload.length ++ payload).length
      = w + payload.length := by
    simp [List.length_append, toBeBytes_length]
  have hdrop : (toBeBytes w payload.length ++ payload).drop w = payload :=
    drop_append_len _ _ _ (toBeBytes_length w payload.length)
  unfold Length.decode
  rw [if_neg (by omega), hsd,
      if_pos (lt_of_lt_of_le hfit (pow256_le_usize hw8)),
      if_pos (by omega), hdrop, List.take_of_length_le (le_refl _),
      List.drop_of_length_le (le_refl _)]

/-- C6: for every header width `w ∈ {1,2,4,8}` and every payload whose
length is representable in the header type, encoding into an empty buffer
and decoding the produced bytes yields the original payload and leaves
zero undecoded bytes. -/
theorem length_roundtrip (w : Nat) (payload : Buffer)
    (hw : w = 1 ∨ w = 2 ∨ w = 4 ∨ w = 8)
    (hfit : payload.length < 256 ^ w) :
    Length.encode w payload [] =
      (.ok (), toBeBytes w payload.length ++ payload) ∧
    Length.decode w (toBeBytes w payload.length ++ payload) =
      (.ok (some payload), []) := by
  constructor
  · rw [Length.encode_eq_ok [] hfit]
    simp
  · exact Length.decode_header_payload payload (width_le_8 hw) hfit

/-- Witness for `length_roundtrip`: `w = 1`, payload `[7, 8]`. -/
theorem length_roundtrip_witness :
    Length.encode 1 [7, 8] [] =
      (.ok (), toBeBytes 1 (List.length [7, 8]) ++ [7, 8]) ∧
    Length.decode 1 (toBeBytes 1 (List.length [7, 8]) ++ [7, 8]) =
      (.ok (some [7, 8]), []) :=
  length_roundtrip 1 [7, 8] (Or.inl rfl) (by decide)

/-- C8: `Length::encode` fails with `OverflowError` exactly when the
payload length does not fit in the `w`-byte header type; on failure the
destination buffer is unchanged (no partial header or payload); when the
length fits, it appends the big-endian header followed by the raw
payload. -/
theorem length_encode_overflow_exact (w : Nat) (payload dst : Buffer) :
    ((Length.encode w payload dst).1 = .error .overflow ↔
       256 ^ w ≤ payload.length) ∧
    (256 ^ w ≤ payload.length → (Length.encode w payload dst).2 = dst) ∧
    (payload.length < 256 ^ w →
       Length.encode w payload dst =
         (.ok (), (dst ++ toBeBytes w payload.length) ++ payload)) := by
  by_cases hlt : payload.length < 256 ^ w
  · rw [Length.encode_eq_ok dst hlt]
    refine ⟨⟨?_, ?_⟩, ?_, ?_⟩
    · intro h; simp at h
    · intro h; omega
    · intro h; omega
    · intro _; rfl
  · rw [Length.encode_eq_err dst hlt]
    refine ⟨⟨?_, ?_⟩, ?_, ?_⟩
    · intro _; omega
    · intro _; rfl
    · intro _; rfl
    · intro h; omega

/-- Witness for `length_encode_overflow_exact`: a 256-byte payload through
the `u8` header (`w = 1`) fails with `OverflowError` and leaves the
destination `[9]` unchanged. -/
theorem length_encode_overflow_exact_witness :
    (Length.encode 1 (List.replicate 256 0) [9]).1 = .error .overflow ∧
    (Length.encode 1 (List.replicate 256 0) [9]).2 = [9] :=
  ⟨(length_encode_overflow_exact 1 (List.replicate 256 0) [9]).1.2 (by decide),
   (length_encode_overflow_exact 1 (List.replicate 256 0) [9]).2.1 (by decide)⟩

/-- Equation: `Length.decode` with a full header but incomplete payload. -/
theorem Length.decode_none_incomplete {w : Nat} {src : Buffer}
    (hw : w ≤ src.length) (husz : startDecode w src < USIZE_BOUND)
    (hinc : src.length - w < startDecode w src) :
    Length.decode w src = (.ok none, src) := by
  unfold Length.decode
  rw [if_neg (by omega), if_pos husz, if_neg (by omega)]

/-- Equation: the skip-ahead loop with no handler installed falls
straight through. -/
theorem skipLoop_none {σ : Type} (cont : σ → Buffer → Except Unit (Nat × Option σ))
    (fuel : Nat) (src : Buffer) :
    skipLoop cont fuel none src = .through src false := by
  cases fuel <;> rfl

/-- Equation: the skip-ahead loop for the `Length` handler. The handler
either completes (enough bytes buffered) or consumes the whole buffer and
waits; it never errors and never loops more than once. -/
theorem skipLoop_len (fuel r : Nat) (src : Buffer) (hfuel : 0 < fuel) :
    skipLoop LenSkipAhead.continueSkipping fuel (some r) src =
      if r ≤ src.length then
        (if src.length - r = 0 then SkipOut.retNone (src.drop r) none
         else .through (src.drop r) false)
      else .retNone [] (some (r - src.length)) := by
  cases fuel with
  | zero => omega
  | succ f =>
    simp only [skipLoop, LenSkipAhead.continueSkipping]
    by_cases h : r ≤ src.length
    · simp only [if_pos h, List.length_drop]
    · simp only [if_neg h]
      simp [List.drop_length]

/-- C9: once the defunct flag is set (and the skip-ahead slot is empty, as
it always is when the flag gets set), every decode call clears the buffer,
returns the `Defunct` error, and leaves the state unchanged; over any
sequence of subsequent calls with any buffer contents, every call fails
with `Defunct` and no item is ever produced — `Defunct` is terminal. -/
theorem limit_defunct_terminal {α ε σ : Type} (inner : InnerSA α ε σ)
    (mfs : Nat) (st : LimitSt σ)
    (hd : st.decoderDefunct = true) (hs : st.skipAheadState = none) :
    (∀ src : Buffer, limitDecode inner mfs st src =
       ((.error .defunct : Except (LimitError ε) (Option α)), [], st)) ∧
    (∀ srcs : List Buffer, limitDecodeSeq inner mfs st srcs =
       (srcs.map fun _ => (.error .defunct : Except (LimitError ε) (Option α)), st)) := by
  obtain ⟨sas, d⟩ := st
  simp only at hd hs
  subst hd; subst hs
  have hone : ∀ src : Buffer, limitDecode inner mfs ⟨none, true⟩ src =
      ((.error .defunct : Except (LimitError ε) (Option α)), [], ⟨none, true⟩) := by
    intro src
    unfold limitDecode
    rw [skipLoop_none]
    rfl
  refine ⟨hone, ?_⟩
  intro srcs
  induction srcs with
  | nil => rfl
  | cons src rest ih =>
    unfold limitDecodeSeq
    rw [hone src]
    simp only [List.map_cons]
    rw [ih]

/-- Witness for `limit_defunct_terminal`: the defunct `Limit<Length<u8>>`
wrapper with `max_frame_size = 2` clears the buffer `[5, 1]` and fails
with `Defunct`. -/
theorem limit_defunct_terminal_witness :
    limitDecode (lengthInner 1) 2 ⟨none, true⟩ [5, 1] =
      ((.error .defunct : Except (LimitError OverflowError) (Option Buffer)),
       [], ⟨none, true⟩) :=
  (limit_defunct_terminal (lengthInner 1) 2 ⟨none, true⟩ rfl rfl).1 [5, 1]

/-- Auxiliary for C10: a single `Limit::decode` step whose skip-ahead
loop cannot fail preserves a clear defunct flag and never reports
`Defunct`. -/
theorem limitDecode_no_defunct_step {α ε σ : Type} (inner : InnerSA α ε σ)
    (mfs : Nat) (st : LimitSt σ) (src : Buffer)
    (hd : st.decoderDefunct = false)
    (hloop : ∀ s2 d, skipLoop inner.continueSkipping (src.length + 1)
        st.skipAheadState src = .through s2 d → d = false) :
    (limitDecode inner mfs st src).1 ≠ .error .defunct ∧
    ((limitDecode inner mfs st src).2.2).decoderDefunct = false := by
  unfold limitDecode
  cases hsk : skipLoop inner.continueSkipping (src.length + 1) st.skipAheadState src with
  | retNone src2 sas =>
    simp [hd]
  | through src2 d =>
    have hdf := hloop _ _ hsk
    subst hdf
    rw [hd]
    simp only [Bool.or_self, Bool.false_eq_true, if_false]
    rcases hdec : inner.decode src2 with ⟨res, src3⟩
    rcases res with e | o
    · simp
    · rcases o with _ | it
      · by_cases hbig : mfs < src3.length
        · simp [hbig]
        · simp [hbig]
      · simp

/-- C10: the `Length` skip-ahead handler never reports failure —
`continue_skipping` returns `Ok` on every remaining count and every
buffer — and consequently a `Limit` wrapper around `Length<L>` never sets
its defunct flag and never returns the `Defunct` error: one step from any
non-defunct state stays non-defunct, and any sequence of decode calls
from the initial state never produces `Defunct`. -/
theorem len_skip_never_defunct (w mfs : Nat) :
    (∀ (r : Nat) (src : Buffer), ∃ p,
       LenSkipAhead.continueSkipping r src = .ok p) ∧
    (∀ (st : LimitSt Nat) (src : Buffer), st.decoderDefunct = false →
       (limitDecode (lengthInner w) mfs st src).1 ≠ .error .defunct ∧
       ((limitDecode (lengthInner w) mfs st src).2.2).decoderDefunct = false) ∧
    (∀ srcs : List Buffer,
       ((limitDecodeSeq (lengthInner w) mfs ⟨none, false⟩ srcs).2).decoderDefunct
           = false ∧
       ∀ r ∈ (limitDecodeSeq (lengthInner w) mfs ⟨none, false⟩ srcs).1,
         r ≠ .error .defunct) := by
  have hok : ∀ (r : Nat) (src : Buffer), ∃ p,
      LenSkipAhead.continueSkipping r src = .ok p := by
    intro r src
    unfold LenSkipAhead.continueSkipping
    by_cases h : r ≤ src.length
    · exact ⟨_, if_pos h⟩
    · exact ⟨_, if_neg h⟩
  have hloop : ∀ (st : LimitSt Nat) (src : Buffer) (s2 : Buffer) (d : Bool),
      skipLoop (lengthInner w).continueSkipping (src.length + 1)
        st.skipAheadState src = .through s2 d → d = false := by
    intro st src s2 d h
    rcases st with ⟨sas | r, dd⟩
    · rw [show (lengthInner w).continueSkipping = LenSkipAhead.continueSkipping from rfl,
        skipLoop_none] at h
      cases h
      rfl
    · rw [show (lengthInner w).continueSkipping = LenSkipAhead.continueSkipping from rfl,
        skipLoop_len _ _ _ (by omega)] at h
      by_cases h1 : r ≤ src.length
      · rw [if_pos h1] at h
        by_cases h2 : src.length - r = 0
        · rw [if_pos h2] at h
          cases h
        · rw [if_neg h2] at h
          cases h
          rfl
      · rw [if_neg h1] at h
        cases h
  have hstep : ∀ (st : LimitSt Nat) (src : Buffer), st.decoderDefunct = false →
      (limitDecode (lengthInner w) mfs st src).1 ≠ .error .defunct ∧
      ((limitDecode (lengthInner w) mfs st src).2.2).decoderDefunct = false :=
    fun st src hd =>
      limitDecode_no_defunct_step (lengthInner w) mfs st src hd (hloop st src)
  refine ⟨hok, hstep, ?_⟩
  have hseq : ∀ (srcs : List Buffer) (st : LimitSt Nat),
      st.decoderDefunct = false →
      ((limitDecodeSeq (lengthInner w) mfs st srcs).2).decoderDefunct = false ∧
      ∀ r ∈ (limitDecodeSeq (lengthInner w) mfs st srcs).1,
        r ≠ .error .defunct := by
    intro srcs
    induction srcs with
    | nil =>
      intro st hd
      exact ⟨hd, by intro r hr; cases hr⟩
    | cons src rest ih =>
      intro st hd
      have h1 := hstep st src hd
      have h2 := ih (limitDecode (lengthInner w) mfs st src).2.2 h1.2
      constructor
      · exact h2.1
      · intro r hr
        unfold limitDecodeSeq at hr
        rcases List.mem_cons.mp hr with h | h
        · subst h; exact h1.1
        · exact h2.2 r h
  exact fun srcs => hseq srcs ⟨none, false⟩ rfl

/-- Witness for `len_skip_never_defunct`: one decode step of
`Limit<Length<u8>>` with `max_frame_size = 2` from a mid-skip state is
not the `Defunct` error. -/
theorem len_skip_never_defunct_witness :
    (limitDecode (lengthInner 1) 2 ⟨some 5, false⟩ [1, 2]).1 ≠
      .error .defunct :=
  ((len_skip_never_defunct 1 2).2.1 ⟨some 5, false⟩ [1, 2] rfl).1

/-- Shared helper: `Limit<Length<L>>::decode` in the Normal state, with the
inner decode reporting no item while the buffered length exceeds
`max_frame_size`: the wrapper prepares a skip-ahead handler (which consumes
the `w`-byte header and records the declared payload length), transitions
to SkippingAhead, and fails with `LimitExceeded` carrying the buffer length
as it stands after the header was consumed, i.e. `src.length - w`. -/
theorem limitDecode_len_oversize (w mfs : Nat) (src : Buffer)
    (hwm : w ≤ mfs) (hbig : mfs < src.length)
    (husz : startDecode w src < USIZE_BOUND)
    (hinc : src.length - w < startDecode w src) :
    limitDecode (lengthInner w) mfs ⟨none, false⟩ src =
      (.error (.limitExceeded (src.length - w)), src.drop w,
       ⟨some (startDecode w src), false⟩) := by
  have hw : w ≤ src.length := le_trans hwm (le_of_lt hbig)
  have hdec : Length.decode w src = (.ok none, src) :=
    Length.decode_none_incomplete hw husz hinc
  unfold limitDecode
  rw [skipLoop_none]
  simp only [lengthInner, hdec, Bool.or_self, Bool.false_eq_true, if_false,
    if_pos hbig, Length.prepareSkipAhead, List.length_drop]

/-- C3 (amended): when `Limit::decode` in the Normal state finds the inner
decoder reporting no item while the buffered byte count exceeds
`max_frame_size`, it calls the inner codec's `prepare_skip_ahead` and
transitions to SkippingAhead, but the `LimitExceeded` error it returns
carries the buffer length as measured *after* `prepare_skip_ahead` has
consumed the frame header — the observed buffered length minus the header
width — because the source evaluates `src.len()` after the mutating call. -/
theorem limit_exceeded_reports_post_header_length (w mfs : Nat) (src : Buffer)
    (hwm : w ≤ mfs) (hbig : mfs < src.length)
    (husz : startDecode w src < USIZE_BOUND)
    (hinc : src.length - w < startDecode w src) :
    limitDecode (lengthInner w) mfs ⟨none, false⟩ src =
      (.error (.limitExceeded (src.length - w)), src.drop w,
       ⟨some (startDecode w src), false⟩) :=
  limitDecode_len_oversize w mfs src hwm hbig husz hinc

/-- Witness for `limit_exceeded_reports_post_header_length`: `w = 1`,
`max_frame_size = 2`, buffer `[5, 1, 2, 3]` (header declares 5 bytes, only
3 buffered, 4 > 2 total buffered). -/
theorem limit_exceeded_reports_post_header_length_witness :
    limitDecode (lengthInner 1) 2 ⟨none, false⟩ [5, 1, 2, 3] =
      (.error (.limitExceeded (List.length ([5, 1, 2, 3] : Buffer) - 1)),
       List.drop 1 [5, 1, 2, 3], ⟨some (startDecode 1 [5, 1, 2, 3]), false⟩) :=
  limit_exceeded_reports_post_header_length 1 2 [5, 1, 2, 3]
    (by decide) (by decide) (by decide) (by decide)

/-- Counterexample to C3 as stated: with a `u8` header, `max_frame_size = 2`
and buffer `[5, 1, 2, 3]`, the observed buffered length when the violation
is detected is 4, but the returned error carries 3 (the length after the
header byte was consumed by `prepare_skip_ahead`). -/
theorem limit_exceeded_observed_length_cex :
    (limitDecode (lengthInner 1) 2 ⟨none, false⟩ [5, 1, 2, 3]).1 =
      .error (.limitExceeded 3) ∧
    (limitDecode (lengthInner 1) 2 ⟨none, false⟩ [5, 1, 2, 3]).1 ≠
      .error (.limitExceeded (List.length ([5, 1, 2, 3] : Buffer))) := by
  constructor
  · rfl
  · intro h
    rw [show (limitDecode (lengthInner 1) 2 ⟨none, false⟩ [5, 1, 2, 3]).1 =
        .error (.limitExceeded 3) from rfl] at h
    simp at h

/-- C2: oversized-frame recovery for `Limit<Length<L>>` with
`max_frame_size ≥ header width`. First call: the header and `k` payload
bytes of an over-budget frame are buffered (`w + k > max_frame_size` but
fewer than the declared payload), so the call fails with `LimitExceeded`
and installs a skip-ahead handler remembering the declared length. Second
call: once the rest of the oversized payload plus a complete in-budget
frame has arrived, the handler discards the oversized payload and the
second frame's payload is yielded intact. Third conjunct: each
continuation call on a buffer shorter than `remaining` discards
`min(remaining, buffered)` (= the whole buffer) and decrements
`remaining`. -/
theorem limit_oversize_recovery (w mfs k : Nat) (payload1 payload2 : Buffer)
    (hw : w = 1 ∨ w = 2 ∨ w = 4 ∨ w = 8)
    (hwm : w ≤ mfs)
    (hover : mfs < payload1.length)
    (hrep1 : payload1.length < 256 ^ w)
    (hk : k < payload1.length)
    (hdet : mfs < w + k)
    (hrep2 : payload2.length < 256 ^ w)
    (hbudget : w + payload2.length ≤ mfs) :
    limitDecode (lengthInner w) mfs ⟨none, false⟩
        (toBeBytes w payload1.length ++ payload1.take k) =
      (.error (.limitExceeded k), payload1.take k,
       ⟨some payload1.length, false⟩) ∧
    limitDecode (lengthInner w) mfs ⟨some payload1.length, false⟩
        (payload1.take k ++
          (payload1.drop k ++ (toBeBytes w payload2.length ++ payload2))) =
      (.ok (some payload2), [], ⟨none, false⟩) ∧
    (∀ (r : Nat) (src : Buffer), src.length < r →
       limitDecode (lengthInner w) mfs ⟨some r, false⟩ src =
         ((.ok none : Except (LimitError OverflowError) (Option Buffer)), [],
          ⟨some (r - src.length), false⟩)) := by
  have hw1 : 1 ≤ w := by rcases hw with h | h | h | h <;> omega
  have htk : (payload1.take k).length = k := by
    rw [List.length_take]
    omega
  refine ⟨?_, ?_, ?_⟩
  · have hlen1 : (toBeBytes w payload1.length ++ payload1.take k).length
        = w + k := by
      simp [List.length_append, toBeBytes_length, htk]
    have hsd1 : startDecode w (toBeBytes w payload1.length ++ payload1.take k)
        = payload1.length := by
      rw [startDecode_header, fromBeBytes_toBeBytes _ _ hrep1]
    have h := limitDecode_len_oversize w mfs
      (toBeBytes w payload1.length ++ payload1.take k) hwm
      (by rw [hlen1]; omega)
      (by rw [hsd1]; exact lt_of_lt_of_le hrep1 (pow256_le_usize (width_le_8 hw)))
      (by rw [hlen1, hsd1]; omega)
    rw [h, hlen1, hsd1,
        drop_append_len _ _ _ (toBeBytes_length w payload1.length),
        Nat.add_sub_cancel_left]
  · have hb2 : payload1.take k ++
        (payload1.drop k ++ (toBeBytes w payload2.length ++ payload2)) =
        payload1 ++ (toBeBytes w payload2.length ++ payload2) := by
      rw [← List.append_assoc, List.take_append_drop]
    rw [hb2]
    have hlen2 : (payload1 ++ (toBeBytes w payload2.length ++ payload2)).length
        = payload1.length + (w + payload2.length) := by
      simp [List.length_append, toBeBytes_length]
    have hdropp1 :
        (payload1 ++ (toBeBytes w payload2.length ++ payload2)).drop
            payload1.length =
          toBeBytes w payload2.length ++ payload2 :=
      drop_append_len _ _ _ rfl
    unfold limitDecode
    rw [show (lengthInner w).continueSkipping = LenSkipAhead.continueSkipping
        from rfl,
      skipLoop_len _ _ _ (by omega),
      if_pos (by rw [hlen2]; omega),
      if_neg (by rw [hlen2]; omega)]
    rw [hdropp1]
    have hdec : (lengthInner w).decode (toBeBytes w payload2.length ++ payload2)
        = (.ok (some payload2), []) :=
      Length.decode_header_payload payload2 (width_le_8 hw) hrep2
    simp only [hdec, Bool.or_self, Bool.false_eq_true, if_false]
  · intro r src hlt
    unfold limitDecode
    rw [show (lengthInner w).continueSkipping = LenSkipAhead.continueSkipping
        from rfl,
      skipLoop_len _ _ _ (by omega),
      if_neg (by omega)]

theorem memchr_newline_at_end (pre : Buffer) (h : 10 ∉ pre) :
    memchr 10 (pre ++ [10]) = some pre.length := by
  induction pre with
  | nil => rfl
  | cons b t ih =>
    have hb : b ≠ 10 := by
      intro hb
      exact h (by simp [hb])
    have ht : 10 ∉ t := fun hm => h (List.mem_cons_of_mem _ hm)
    rw [List.cons_append]
    show (if b = 10 then some 0 else (memchr 10 (t ++ [10])).map (· + 1))
      = some (b :: t).length
    rw [if_neg hb, ih ht]
    simp

/-- Counterexample to C7 as stated: `Lines::encode` appends the item's
bytes without adding a newline, so the one-byte string "a" (byte 97)
encodes to `[97]`, on which `Lines::decode` finds no newline and returns
no item at all — the round trip does not yield the item back. -/
theorem lines_roundtrip_cex :
    Lines.decode (Lines.encode [97] []) = (.ok none, [97]) ∧
    Lines.decode (Lines.encode [97] []) ≠ (.ok (some [97]), []) := by
  constructor
  · rfl
  · intro h
    rw [show Lines.decode (Lines.encode [97] []) = (.ok none, [97]) from rfl] at h
    simp at h

/-- C7 (amended): the Lines round trip holds exactly for the items the
decoder can reproduce: a String whose final byte is the newline and which
contains no other newline. Encoding such an item and feeding the bytes
back through decode yields an equal item and leaves zero undecoded bytes.
(An item with no trailing newline is not yielded back at all, and an
interior newline makes decode split early — see the counterexample.) -/
theorem lines_roundtrip_terminated (pre : RString) (hnl : 10 ∉ pre)
    (hval : utf8Valid (pre ++ [10]) = true) :
    Lines.decode (Lines.encode (pre ++ [10]) []) =
      (.ok (some (pre ++ [10])), []) := by
  unfold Lines.encode Lines.decode
  rw [List.nil_append, memchr_newline_at_end pre hnl]
  have hlen : (pre ++ [10]).length ≤ pre.length + 1 := by simp
  simp only [List.take_of_length_le hlen, List.drop_of_length_le hlen,
    if_pos hval]

/-- Witness for `lines_roundtrip_terminated`: the string "Hi\n"
(bytes `[72, 105, 10]`). -/
theorem lines_roundtrip_terminated_witness :
    Lines.decode (Lines.encode ([72, 105] ++ [10]) []) =
      (.ok (some ([72, 105] ++ [10])), []) :=
  lines_roundtrip_terminated [72, 105] (by decide) (by decide)

/-- C5: end-of-input handling of `Framed::poll_next`. Concretely, the
Lines-framed input "Hello\nWorld\nError" (no trailing newline) yields the
two complete lines and then the truncated-stream error, never a third
item. Generally, with the reader at end of input (a zero-byte read): if
decode yields nothing and the buffer has emptied, the stream ends
cleanly; if bytes remain and neither decode nor decode-at-end-of-stream
produces an item, the call returns the truncated-stream error. -/
theorem framed_eof_truncation :
    (framedPollNext linesCM
        [[72, 101, 108, 108, 111, 10, 87, 111, 114, 108, 100, 10,
          69, 114, 114, 111, 114]] [] =
      (.item [72, 101, 108, 108, 111, 10],
       [87, 111, 114, 108, 100, 10, 69, 114, 114, 111, 114], []) ∧
     framedPollNext linesCM []
        [87, 111, 114, 108, 100, 10, 69, 114, 114, 111, 114] =
      (.item [87, 111, 114, 108, 100, 10], [69, 114, 114, 111, 114], []) ∧
     framedPollNext linesCM [] [69, 114, 114, 111, 114] =
      (.truncated, [69, 114, 114, 111, 114], [])) ∧
    (∀ (α ε : Type) (c : CodecM α ε) (rbuf rb2 rb3 : Buffer),
       c.decode rbuf = (.ok none, rb2) →
       c.decode rb2 = (.ok none, rb3) →
       rb3 = [] →
       framedPollNext c [] rbuf = ((.stop : PollRes α ε), [], [])) ∧
    (∀ (α ε : Type) (c : CodecM α ε) (rbuf rb2 rb3 rb4 : Buffer),
       c.decode rbuf = (.ok none, rb2) →
       c.decode rb2 = (.ok none, rb3) →
       rb3 ≠ [] →
       c.decodeEof rb3 = (.ok none, rb4) →
       rb4 ≠ [] →
       framedPollNext c [] rbuf = ((.truncated : PollRes α ε), rb4, [])) := by
  refine ⟨⟨?_, ?_, ?_⟩, ?_, ?_⟩
  · rfl
  · rfl
  · rfl
  · intro α ε c rbuf rb2 rb3 h1 h2 h3
    subst h3
    show pollNextFuel c 2 [] rbuf false = (.stop, [], [])
    simp only [pollNextFuel, h1, Bool.false_eq_true, if_false, h2,
      List.isEmpty_nil]
    simp
  · intro α ε c rbuf rb2 rb3 rb4 h1 h2 h3 h4 h5
    show pollNextFuel c 2 [] rbuf false = (.truncated, rb4, [])
    have h3b : rb3.isEmpty = false := by
      cases rb3 with
      | nil => exact absurd rfl h3
      | cons a t => rfl
    have h5b : rb4.isEmpty = false := by
      cases rb4 with
      | nil => exact absurd rfl h5
      | cons a t => rfl
    simp only [pollNextFuel, h1, Bool.false_eq_true, if_false, h2, h3b, h4,
      h5b]
    simp

theorem flushLoop_le (limit : Nat) (buf : Buffer) (sk : NullSink) :
    ((flushLoop limit (buf.length + 1) buf sk).1).length ≤ limit := by
  by_cases h : limit < buf.length
  · obtain ⟨m, hm⟩ : ∃ m, buf.length = m + 1 := ⟨buf.length - 1, by omega⟩
    simp only [flushLoop, if_pos h, List.drop_length]
    rw [hm]
    simp only [flushLoop, List.length_nil]
    rw [if_neg (by omega)]
    simp
  · simp only [flushLoop, if_neg h]
    omega

/-- Equation: draining to a limit the buffer already meets does
nothing. -/
theorem pollFlushUntil_eq_self {limit : Nat} (f : FramedW)
    (h : f.wBuffer.length ≤ limit) : pollFlushUntil limit f = f := by
  obtain ⟨buf, hwm, sk⟩ := f
  simp only at h
  simp only [pollFlushUntil, flushLoop]
  rw [if_neg (by omega)]

/-- Equation: draining past the buffer's current length empties it with a
single write of the whole buffer (the null sink accepts everything). -/
theorem pollFlushUntil_eq_write {limit : Nat} (f : FramedW)
    (h : limit < f.wBuffer.length) :
    pollFlushUntil limit f =
      ⟨[], f.wHighWaterMark,
       ⟨f.sink.numPollWrite + 1, f.wBuffer.length,
        f.sink.writes ++ [f.wBuffer.length]⟩⟩ := by
  obtain ⟨buf, hwm, sk⟩ := f
  simp only at h
  obtain ⟨m, hm⟩ : ∃ m, buf.length = m + 1 := ⟨buf.length - 1, by omega⟩
  simp only [pollFlushUntil, flushLoop, if_pos h, List.drop_length]
  rw [hm]
  simp only [flushLoop, List.length_nil]
  rw [if_neg (by omega)]

/-- Equation: one step of the `SendAll` item loop. -/
theorem sendLoop_cons (it : Buffer) (rest : List Buffer) (f : FramedW) :
    sendLoop (it :: rest) f = sendLoop rest (startSend it (pollReady f)) := by
  unfold sendLoop
  rw [List.foldl_cons]

/-- Equation: while the buffer stays under the high-water mark, the item
loop appends the items' bytes with no write at all. -/
theorem sendLoop_fill (k : Nat) (f : FramedW)
    (h : f.wBuffer.length + k ≤ f.wHighWaterMark) :
    sendLoop (List.replicate k [0]) f =
      { f with wBuffer := f.wBuffer ++ List.replicate k 0 } := by
  induction k generalizing f with
  | zero =>
    simp only [List.replicate_zero, List.append_nil]
    rfl
  | succ k ih =>
    rw [List.replicate_succ, sendLoop_cons]
    rw [show pollReady f = f from pollFlushUntil_eq_self f (by omega)]
    rw [show startSend [0] f = { f with wBuffer := f.wBuffer ++ [0] } from rfl]
    rw [ih { f with wBuffer := f.wBuffer ++ [0] }
      (by simp only [List.length_append, List.length_cons, List.length_nil]
          omega)]
    simp [List.replicate_succ, List.append_assoc]

/-- C4: with `w_high_water_mark = 500` over the always-accepting sink,
sending 999 single-byte items (a ready-check before each item, one full
flush at the end) performs exactly 2 underlying write calls, the first of
500 bytes and the second of 499; and in general the ready-check drains
the write buffer to at most `w_high_water_mark - 1` pending bytes before
an item is accepted. -/
theorem framed_backpressure_two_writes :
    sendAllNull (List.replicate 999 [0]) ⟨[], 500, ⟨0, 0, []⟩⟩ =
      ⟨[], 500, ⟨2, 499, [500, 499]⟩⟩ ∧
    (∀ f : FramedW,
       ((pollReady f).wBuffer).length ≤ f.wHighWaterMark - 1 ∧
       (pollReady f).wHighWaterMark = f.wHighWaterMark) := by
  constructor
  · have hsplit : List.replicate 999 ([0] : Buffer) =
        List.replicate 500 [0] ++ List.replicate 499 [0] := by
      rw [← List.replicate_add]
    have happ : ∀ (l1 l2 : List Buffer) (f : FramedW),
        sendLoop (l1 ++ l2) f = sendLoop l2 (sendLoop l1 f) := by
      intro l1 l2 f
      unfold sendLoop
      rw [List.foldl_append]
    have step1 : sendLoop (List.replicate 500 [0]) ⟨[], 500, ⟨0, 0, []⟩⟩ =
        ⟨List.replicate 500 0, 500, ⟨0, 0, []⟩⟩ := by
      rw [sendLoop_fill 500 _ (by simp)]
      simp
    have step2 : sendLoop (List.replicate 499 [0])
        ⟨List.replicate 500 0, 500, ⟨0, 0, []⟩⟩ =
        ⟨List.replicate 499 0, 500, ⟨1, 500, [500]⟩⟩ := by
      have h499 : List.replicate 499 ([0] : Buffer) =
          [0] :: List.replicate 498 [0] := by
        rw [show (499 : Nat) = 498 + 1 from rfl, List.replicate_succ]
      have hpr : pollReady ⟨List.replicate 500 0, 500, ⟨0, 0, []⟩⟩ =
          ⟨[], 500, ⟨1, 500, [500]⟩⟩ := by
        unfold pollReady
        rw [pollFlushUntil_eq_write _ (by simp)]
        simp
      rw [h499, sendLoop_cons, hpr]
      rw [show startSend [0] (⟨[], 500, ⟨1, 500, [500]⟩⟩ : FramedW) =
          ⟨[0], 500, ⟨1, 500, [500]⟩⟩ from rfl]
      rw [sendLoop_fill 498 _ (by simp)]
      rw [show ([0] : Buffer) ++ List.replicate 498 0 = List.replicate 499 0
        from by rw [show (499 : Nat) = 498 + 1 from rfl, List.replicate_succ]
                rfl]
    unfold sendAllNull
    rw [hsplit, happ, step1, step2,
        pollFlushUntil_eq_write _ (by simp)]
    simp
  · intro f
    exact ⟨flushLoop_le (f.wHighWaterMark - 1) f.wBuffer f.sink, rfl⟩

/-- Witness for `framed_eof_truncation`: the general clauses applied to
the Lines codec with an empty buffer (clean end) and with the leftover
byte `[69]` (truncated). -/
theorem framed_eof_truncation_witness :
    framedPollNext linesCM [] [] = (.stop, [], []) ∧
    framedPollNext linesCM [] [69] = (.truncated, [69], []) :=
  ⟨framed_eof_truncation.2.1 RString Unit linesCM [] [] [] rfl rfl rfl,
   framed_eof_truncation.2.2 RString Unit linesCM [69] [69] [69] [69]
     rfl rfl (by simp) rfl (by simp)⟩

/-- Witness for `limit_oversize_recovery`: `w = 1`, `max_frame_size = 2`,
oversized payload `[1, 2, 3, 4, 5]` split after `k = 2` buffered bytes,
followed by the in-budget frame with payload `[9]`. -/
theorem limit_oversize_recovery_witness :
    limitDecode (lengthInner 1) 2 ⟨none, false⟩
        (toBeBytes 1 (List.length ([1, 2, 3, 4, 5] : Buffer)) ++
          List.take 2 [1, 2, 3, 4, 5]) =
      (.error (.limitExceeded 2), List.take 2 [1, 2, 3, 4, 5],
       ⟨some (List.length ([1, 2, 3, 4, 5] : Buffer)), false⟩) ∧
    limitDecode (lengthInner 1) 2
        ⟨some (List.length ([1, 2, 3, 4, 5] : Buffer)), false⟩
        (List.take 2 [1, 2, 3, 4, 5] ++
          (List.drop 2 [1, 2, 3, 4, 5] ++
            (toBeBytes 1 (List.length ([9] : Buffer)) ++ [9]))) =
      (.ok (some [9]), [], ⟨none, false⟩) := by
  have h := limit_oversize_recovery 1 2 2 [1, 2, 3, 4, 5] [9]
    (Or.inl rfl) (by decide) (by decide) (by decide) (by decide)
    (by decide) (by decide) (by decide)
  exact ⟨h.1, h.2.1⟩

end YzFuturesCodec
